import Mathlib

/-!
Shallow embedding of the JPEG pyramid backend in `src/openslide-ops-jpeg.c`
(struct layer / struct one_jpeg, the pyramid builder, the region router
entry, the restart-marker index pass and the fancy JPEG source), together
with proofs about the embedded definitions.

Modelling conventions used throughout this file:
* C `int32_t` / `int64_t` values are modelled as `Int`; C integer division
  on them truncates toward zero, which is `Int.tdiv`.  Quantities that the
  code only ever uses as nonnegative counts (buffer sizes, loop counters,
  byte values) are modelled as `Nat`.
* The C `double` field `no_scale_denom_downsample` is modelled as `ℚ`;
  wherever a theorem below depends on it, the concrete values involved are
  exactly representable in an IEEE double, so the rational model agrees
  with the C computation at those inputs.
* Pointer arithmetic outside the bounds of an array is undefined behavior
  in C; functions that would perform it are modelled as `Option`-valued and
  return `none` in that case.
* GLib hash tables keyed by `int64_t` are modelled as association lists in
  insertion order where `g_hash_table_insert` replaces an existing binding;
  `g_list_sort` with `width_compare` (which orders larger widths first) is
  modelled by `List.insertionSort` with the relation `b ≤ a`.
-/

/-- Pixel dimensions of one decoded JPEG file, the part of `struct one_jpeg`
(width/height fields) that the pyramid builder reads. -/
structure OneJpegRec where
  width : Int
  height : Int
deriving DecidableEq

/-- An input fragment, mirroring `struct _openslide_jpeg_fragment`: position
`(z, x, y)` of one JPEG file in the pyramid. -/
structure Fragment where
  z : Int
  x : Int
  y : Int
deriving DecidableEq

/-- Mirror of `struct layer`.  The `layer_jpegs` pointer array is modelled by
the list of the referenced `one_jpeg` records. -/
structure Layer where
  layer_jpegs : List OneJpegRec
  pixel_w : Int
  pixel_h : Int
  jpegs_across : Int
  jpegs_down : Int
  image00_w : Int
  image00_h : Int
  scale_denom : Int
  no_scale_denom_downsample : ℚ
deriving DecidableEq

/-- Transcription of `is_zxy_successor` (openslide-ops-jpeg.c lines 94-118). -/
def is_zxy_successor (pz px py z x y : Int) : Bool :=
  if z = pz + 1 then decide (x = 0) && decide (y = 0)
  else if z ≠ pz then false
  else if y = py + 1 then decide (x = 0)
  else if y ≠ py then false
  else decide (x = px + 1)

/-- The successor relation exactly as the specification spells it out
(three alternatives); used to state claim C4. -/
def zxy_successor_rel (p q : Fragment) : Prop :=
  (q.z = p.z + 1 ∧ q.x = 0 ∧ q.y = 0) ∨
  (q.z = p.z ∧ q.y = p.y + 1 ∧ q.x = 0) ∨
  (q.z = p.z ∧ q.y = p.y ∧ q.x = p.x + 1)

/-- The while loop body of `generate_layers_into_map` (lines 165-196): starting
from a given `scale_denom`, emit one `(key, layer)` pair per iteration and
double `scale_denom`, while `scale_denom <= 8`.  The C loop is always entered
with `scale_denom = 1`; the `0 < scale_denom` guard below only rules out the
unreachable nonterminating start value 0.  The key is
`l->pixel_w / l->scale_denom` computed with C (truncating) division. -/
def generate_layers_loop (jpegs : List OneJpegRec) (jpegs_across jpegs_down : Int)
    (pixel_w pixel_h : Int) (image00_w image00_h : Int) (layer0_w : Int)
    (scale_denom : Nat) : List (Int × Layer) :=
  if h : 0 < scale_denom ∧ scale_denom ≤ 8 then
    let l : Layer :=
      { layer_jpegs := jpegs.take (jpegs_across * jpegs_down).toNat
        pixel_w := pixel_w
        pixel_h := pixel_h
        jpegs_across := jpegs_across
        jpegs_down := jpegs_down
        image00_w := image00_w
        image00_h := image00_h
        scale_denom := (scale_denom : Int)
        no_scale_denom_downsample := (layer0_w : ℚ) / (pixel_w : ℚ) }
    (Int.tdiv l.pixel_w l.scale_denom, l) ::
      generate_layers_loop jpegs jpegs_across jpegs_down pixel_w pixel_h
        image00_w image00_h layer0_w (2 * scale_denom)
  else []
termination_by 9 - scale_denom
decreasing_by omega

/-- Model of `g_hash_table_insert`: replace any existing binding for the key,
add the new one. -/
def insertReplace (m : List (Int × Layer)) (e : Int × Layer) : List (Int × Layer) :=
  e :: m.filter (fun p => decide (p.1 ≠ e.1))

/-- Transcription of `generate_layers_into_map` (lines 154-197): run the
scale-denominator loop starting at 1 and insert every emitted pair into the
width-to-layer map. -/
def generate_layers_into_map (jpegs : List OneJpegRec) (jpegs_across jpegs_down : Int)
    (pixel_w pixel_h : Int) (image00_w image00_h : Int) (layer0_w : Int)
    (width_to_layer_map : List (Int × Layer)) : List (Int × Layer) :=
  (generate_layers_loop jpegs jpegs_across jpegs_down pixel_w pixel_h
      image00_w image00_h layer0_w 1).foldl insertReplace width_to_layer_map

/-- True when the current fragment is the last one of its pyramid depth, the
flush condition `i == count - 1 || fragments[i + 1]->z != fr->z` of line 257. -/
def layer_ends_here (fr : Fragment) (rest : List (Fragment × OneJpegRec)) : Bool :=
  match rest with
  | [] => true
  | (fr2, _) :: _ => decide (fr2.z ≠ fr.z)

/-- Loop body of `create_width_to_layer_map` (lines 222-286).  The fragment
array and the aligned `one_jpeg` array are modelled as one list of pairs; the
accumulator `acc` is `layer_jpegs_tmp`, kept in prepend order exactly as the
`GSList` in the C code and reversed at flush time.  The `g_assert` on the
fragment order is modelled by returning `none`.  The special case for the
first fragment (lines 231-235) only rewrites `prev_z/x/y`, which are
overwritten again at lines 283-285 before being read, so it has no effect
and is not reproduced. -/
def create_width_to_layer_map_loop :
    List (Fragment × OneJpegRec) → Int → Int → Int → List OneJpegRec →
    Int → Int → Int → Int → Int → List (Int × Layer) → Option (List (Int × Layer))
  | [], _, _, _, _, _, _, _, _, _, m => some m
  | (fr, oj) :: rest, prev_z, prev_x, prev_y, acc, l_pw, l_ph,
      img00_w, img00_h, layer0_w, m =>
    if is_zxy_successor prev_z prev_x prev_y fr.z fr.x fr.y then
      let img00_w := if fr.x = 0 ∧ fr.y = 0 then oj.width else img00_w
      let img00_h := if fr.x = 0 ∧ fr.y = 0 then oj.height else img00_h
      let l_pw := if fr.y = 0 then l_pw + oj.width else l_pw
      let l_ph := if fr.x = 0 then l_ph + oj.height else l_ph
      let acc := oj :: acc
      if layer_ends_here fr rest then
        let layer0_w := if fr.z = 0 then l_pw else layer0_w
        let m := generate_layers_into_map acc.reverse (fr.x + 1) (fr.y + 1)
          l_pw l_ph img00_w img00_h layer0_w m
        create_width_to_layer_map_loop rest fr.z fr.x fr.y [] 0 0 0 0 layer0_w m
      else
        create_width_to_layer_map_loop rest fr.z fr.x fr.y acc l_pw l_ph
          img00_w img00_h layer0_w m
    else none

/-- Transcription of `create_width_to_layer_map` (lines 199-289): initial
previous position `(-1, -1, -1)`, empty accumulators, empty map. -/
def create_width_to_layer_map (frs : List (Fragment × OneJpegRec)) :
    Option (List (Int × Layer)) :=
  create_width_to_layer_map_loop frs (-1) (-1) (-1) [] 0 0 0 0 0 []

/-- Model of `g_hash_table_lookup` on the association-list map. -/
def map_lookup (k : Int) (m : List (Int × Layer)) : Option Layer :=
  (m.find? (fun p => p.1 == k)).map Prod.snd

/-- Published width of a layer, `l->pixel_w / l->scale_denom` with C
(truncating) division, exactly the expression of `get_dimensions` line 544
and of the map key of `generate_layers_into_map` line 190. -/
def published_width (l : Layer) : Int :=
  Int.tdiv l.pixel_w l.scale_denom

/-- Transcription of `_openslide_add_jpeg_ops` (lines 682-776) restricted to
what it does to the layer data: build the width-to-layer map from the
fragments, collect its keys, sort them with `width_compare` (larger widths
first), and copy the layers out of the map in that key order. -/
def _openslide_add_jpeg_ops (frs : List (Fragment × OneJpegRec)) :
    Option (List Layer) :=
  match create_width_to_layer_map frs with
  | none => none
  | some m =>
    let layer_keys := (m.map Prod.fst).reverse
    let sorted_keys := layer_keys.insertionSort (fun a b => b ≤ a)
    some (sorted_keys.filterMap (fun k => map_lookup k m))

/-- Access of `data->layers + layer` followed by a dereference: defined only
for indices inside the array, `none` models the undefined behavior of
out-of-bounds pointer arithmetic. -/
def layersGet (layers : List Layer) (layer : Int) : Option Layer :=
  if h : 0 ≤ layer ∧ layer.toNat < layers.length then
    some (layers.get ⟨layer.toNat, h.2⟩)
  else none

/-- Transcription of `get_dimensions` (lines 532-548): the only bounds check
in the C code is `layer >= osr->layer_count`; a negative `layer` reaches the
array access. -/
def get_dimensions (layers : List Layer) (layer : Int) : Option (Int × Int) :=
  if (layers.length : Int) ≤ layer then some (0, 0)
  else
    (layersGet layers layer).map fun l =>
      (Int.tdiv l.pixel_w l.scale_denom, Int.tdiv l.pixel_h l.scale_denom)

/-- Conversion of a C `double` to `int64_t`, which truncates toward zero,
modelled on the exact rational value. -/
def ratTrunc (q : ℚ) : Int :=
  Int.tdiv q.num (q.den : Int)

/-- The pre-scale source window that the region router derives from a request
before walking the file grid (locals of `read_region`). -/
structure RouterSetup where
  src_x : Int
  src_y : Int
  end_src_x : Int
  end_src_y : Int
deriving DecidableEq

/-- Transcription of the entry of `read_region` (lines 416-457): fetch the
layer (the C code indexes `data->layers + layer` with no bounds check
whatsoever, modelled by `layersGet`), then compute the pre-scale source
start and end coordinates.  The grid walk that follows in the C code uses
only these values and is not needed by any claim. -/
def read_region (layers : List Layer) (x y : Int) (layer : Int) (w h : Int) :
    Option RouterSetup :=
  (layersGet layers layer).map fun l =>
    let scale_denom := l.scale_denom
    let rel_downsample := l.no_scale_denom_downsample
    let src_y0 := ratTrunc ((y : ℚ) / rel_downsample)
    let src_y := Int.tdiv src_y0 scale_denom * scale_denom
    let end_src_y := min (src_y + h * scale_denom) l.pixel_h
    let src_x0 := ratTrunc ((x : ℚ) / rel_downsample)
    let src_x := Int.tdiv src_x0 scale_denom * scale_denom
    let end_src_x := min (src_x + w * scale_denom) l.pixel_w
    { src_x := src_x, src_y := src_y, end_src_x := end_src_x, end_src_y := end_src_y }

/-- Expected number of restart-delimited segments, from `compute_optimization`
lines 578-579: `MCUs_per_row * MCU_rows_in_scan / restart_interval` with
integer division.  The quantities are the nonnegative decoder counts. -/
def mcu_starts_count (MCUs_per_row MCU_rows_in_scan restart_interval : Nat) : Nat :=
  MCUs_per_row * MCU_rows_in_scan / restart_interval

/-- Tile width computed by `init_one_jpeg` lines 656-657:
`width / (MCUs_per_row / restart_interval)`. -/
def one_jpeg_tile_width (width MCUs_per_row restart_interval : Nat) : Nat :=
  width / (MCUs_per_row / restart_interval)

/-- Tile height computed by `init_one_jpeg` line 658:
`height / MCU_rows_in_scan`. -/
def one_jpeg_tile_height (height MCU_rows_in_scan : Nat) : Nat :=
  height / MCU_rows_in_scan

/-- The restart-marker scan of `compute_optimization` (lines 586-606),
recording the index of every store into `mcu_starts` that the loop performs.
The byte list is the entropy-coded stream as delivered by the source after
the header (the fancy source is configured with an empty positions table
here, so it never rewrites bytes); when the file is exhausted the source
synthesizes `FF D9`, after which the loop breaks without storing, so the
empty-list case produces no further stores.  A store happens at index
`1 + marker` (line 602) whenever the previous byte was `FF` and the current
byte is `D0..D7`; seeing `FF D9` (EOI) breaks out of the loop. -/
def mcu_scan_writes (bytes : List Nat) (last_was_ff : Bool) (marker : Nat)
    (count : Nat) : List Nat :=
  match bytes with
  | [] => []
  | b :: rest =>
    if marker < count then
      if last_was_ff ∧ b = 0xD9 then []
      else if last_was_ff ∧ 0xD0 ≤ b ∧ b < 0xD8 then
        (1 + marker) :: mcu_scan_writes rest (b == 0xFF) (marker + 1) count
      else mcu_scan_writes rest (b == 0xFF) marker count
    else []

/-- Test for the second byte of a restart marker, `b >= 0xD0 && b < 0xD8`. -/
def isRstByte (b : Nat) : Bool :=
  decide (0xD0 ≤ b ∧ b < 0xD8)

/-- Marker-rewriting loop of `fill_input_buffer` (lines 903-913): scan the
freshly read bytes; whenever the previous original byte was `FF` and the
current byte is `D0..D7`, overwrite it with `0xD0 | next_restart_marker` and
step `next_restart_marker` to `(next_restart_marker + 1) % 8`.  Returns the
rewritten buffer and the final `next_restart_marker`.  As in the C code the
`last_was_ff` flag always tracks the original byte `b`, not the overwritten
value. -/
def rewrite_restart_markers (bytes : List Nat) (last_was_ff : Bool)
    (next_restart_marker : Nat) : List Nat × Nat :=
  match bytes with
  | [] => ([], next_restart_marker)
  | b :: rest =>
    if last_was_ff ∧ isRstByte b then
      let out := rewrite_restart_markers rest (b == 0xFF) ((next_restart_marker + 1) % 8)
      ((0xD0 ||| next_restart_marker) :: out.1, out.2)
    else
      let out := rewrite_restart_markers rest (b == 0xFF) next_restart_marker
      (b :: out.1, out.2)

/-- Result of the post-read portion of `fill_input_buffer`: the (possibly
rewritten) buffer, the byte count handed to the decoder, the updated
`next_restart_marker`, and the relative seek applied to the file. -/
structure FillResult where
  buffer : List Nat
  bytes_in_buffer : Nat
  next_restart_marker : Nat
  seek_delta : Int
deriving DecidableEq

/-- The `rewrite_markers` branch of `fill_input_buffer` (lines 901-920),
taken on every fill after the header pass when `fread` returned at least one
byte: rewrite the restart markers in the fresh buffer, then, if the last
original byte was `FF` and more than one byte was read, give the decoder one
byte less and seek the file back one byte (lines 916-919). -/
def fill_post_read (bytes : List Nat) (next_restart_marker : Nat) : FillResult :=
  let s := rewrite_restart_markers bytes false next_restart_marker
  if bytes.getLast? = some 0xFF ∧ 1 < bytes.length then
    { buffer := s.1, bytes_in_buffer := bytes.length - 1,
      next_restart_marker := s.2, seek_delta := -1 }
  else
    { buffer := s.1, bytes_in_buffer := bytes.length,
      next_restart_marker := s.2, seek_delta := 0 }

/-- Position `i` of the buffer holds the second byte of a restart marker:
the previous byte is `FF` and byte `i` is `D0..D7`.  Position 0 never
qualifies because the scan starts with `last_was_ff = false`; out-of-range
reads default to 0 and never qualify either.  The `f` argument is the value
of the `last_was_ff` flag when the scan reaches the start of the list, used
to state the induction; the scan of the C code starts with `f = false`. -/
def isMarkerPosF (bytes : List Nat) (f : Bool) : Nat → Bool
  | 0 => f && isRstByte (bytes.getD 0 0)
  | j + 1 => (bytes.getD j 0 == 0xFF) && isRstByte (bytes.getD (j + 1) 0)

/-- Number of marker positions strictly before index `i`. -/
def countMarkF (bytes : List Nat) (f : Bool) (i : Nat) : Nat :=
  ((List.range i).filter (isMarkerPosF bytes f)).length

/-- Marker positions of a fresh buffer (scan starts with the flag down). -/
def isMarkerPos (bytes : List Nat) (i : Nat) : Bool :=
  isMarkerPosF bytes false i

/-- Number of marker positions of a fresh buffer strictly before `i`. -/
def markersBefore (bytes : List Nat) (i : Nat) : Nat :=
  countMarkF bytes false i

/-- One output pixel of `read_from_one_jpeg` (lines 383-386): alpha `FF`,
then the R, G, B samples of scanline column `d_x + i`. -/
def argb_pixel (row : List Nat) (d_x i : Nat) : Nat :=
  0xFF000000 ||| ((row.getD ((d_x + i) * 3) 0) <<< 16) |||
    ((row.getD ((d_x + i) * 3 + 1) 0) <<< 8) ||| (row.getD ((d_x + i) * 3 + 2) 0)

/-- The row-copy loop of `read_from_one_jpeg` (lines 381-387):
`for (i = 0; i < w && i < output_width - d_x; i++) dest[i] = ...`.  The
result is the list of `(word offset, pixel value)` stores, with `base` the
offset of `dest` in the output buffer.  The bound `output_width - d_x` is a
signed C `int32_t` subtraction, hence computed in `Int`. -/
def copy_row_loop (row : List Nat) (d_x w output_width base i : Nat) :
    List (Nat × Nat) :=
  if i < w ∧ (i : Int) < (output_width : Int) - (d_x : Int) then
    (base + i, argb_pixel row d_x i) ::
      copy_row_loop row d_x w output_width base (i + 1)
  else []
termination_by w - i
decreasing_by omega

/-- The scanline-consuming loop of `read_from_one_jpeg` (lines 370-402),
flattened over the decoded scanlines (the chunking by `rec_outbuf_height`
only groups consecutive rows and does not change the per-row behavior).
Each decoded row is either skipped while `rows_to_skip > 0`, or copied via
`copy_row_loop` after which the destination advances by `stride` words and
`rows_left` decreases; the loop stops when `rows_left` reaches 0 or the
decoder runs out of scanlines. -/
def decode_rows_loop (rows : List (List Nat)) (rows_to_skip rows_left : Nat)
    (d_x w output_width stride base : Nat) : List (Nat × Nat) :=
  match rows with
  | [] => []
  | r :: rest =>
    if rows_left = 0 then []
    else if 0 < rows_to_skip then
      decode_rows_loop rest (rows_to_skip - 1) rows_left d_x w output_width stride base
    else
      copy_row_loop r d_x w output_width base 0 ++
        decode_rows_loop rest rows_to_skip (rows_left - 1) d_x w output_width
          stride (base + stride)

/-- The write set that the specification describes for the one-JPEG reader:
skip `rows_to_skip` rows, then for each of the next `rows_left` decoded rows
emit exactly `min w (output_width - d_x)` pixels starting at scanline column
`d_x`, each expanded to an ARGB word, with the destination advancing by
`stride` words per emitted row. -/
def emitted_writes (rows : List (List Nat)) (rows_to_skip rows_left : Nat)
    (d_x w output_width stride base : Nat) : List (Nat × Nat) :=
  (((rows.drop rows_to_skip).take rows_left).mapIdx fun k r =>
    (List.range (min w (output_width - d_x))).map fun i =>
      (base + k * stride + i, argb_pixel r d_x i)).flatten

/-- A concrete layer used to evaluate the claims at specific inputs: a
single 4 by 4 JPEG at full resolution. -/
def sampleLayer : Layer :=
  { layer_jpegs := [], pixel_w := 4, pixel_h := 4, jpegs_across := 1,
    jpegs_down := 1, image00_w := 4, image00_h := 4, scale_denom := 1,
    no_scale_denom_downsample := 1 }

/-- A concrete layer whose pre-scale width is half of the layer-0 width, so
`no_scale_denom_downsample = 8 / 4 = 2`; both 4 and 8 and their quotient 2
are exactly representable doubles, so the rational model matches the C
computation on it. -/
def downsampledLayer : Layer :=
  { layer_jpegs := [], pixel_w := 4, pixel_h := 4, jpegs_across := 1,
    jpegs_down := 1, image00_w := 4, image00_h := 4, scale_denom := 1,
    no_scale_denom_downsample := 2 }

instance wider_first_total : IsTotal Int (fun a b => b ≤ a) :=
  ⟨fun a b => le_total b a⟩

instance wider_first_trans : IsTrans Int (fun a b => b ≤ a) :=
  ⟨fun _ _ _ h1 h2 => le_trans h2 h1⟩

/-- Claim C7: for every OneJpeg built by the index pass, the length of the
`mcu_starts` table, `(MCUs_per_row * MCU_rows_in_scan) / restart_interval`,
equals `(width / tile_width) * (height / tile_height)` with
`tile_width = width / (MCUs_per_row / restart_interval)` and
`tile_height = height / MCU_rows_in_scan`.  The divisibility hypotheses are
the tile-geometry invariants the specification imposes on accepted files
(restart markers aligned to MCU rows, `width % tile_width == 0`,
`height % tile_height == 0`). -/
theorem C7_mcu_starts_table_size
    (width height MCUs_per_row MCU_rows_in_scan restart_interval : Nat)
    (hdvdM : restart_interval ∣ MCUs_per_row)
    (hw : 0 < width)
    (hdvdw : MCUs_per_row / restart_interval ∣ width)
    (hh : 0 < height)
    (hdvdh : MCU_rows_in_scan ∣ height) :
    mcu_starts_count MCUs_per_row MCU_rows_in_scan restart_interval =
      (width / one_jpeg_tile_width width MCUs_per_row restart_interval) *
        (height / one_jpeg_tile_height height MCU_rows_in_scan) := by
  unfold mcu_starts_count one_jpeg_tile_width one_jpeg_tile_height
  rw [Nat.div_div_self hdvdw hw.ne', Nat.div_div_self hdvdh hh.ne']
  rw [Nat.mul_comm MCUs_per_row MCU_rows_in_scan, Nat.mul_div_assoc _ hdvdM,
    Nat.mul_comm]

/-- Witness for C7 at a concrete geometry: a 8 by 4 image, 4 MCUs per row, 2
MCU rows, restart interval 2, hence tiles of 4 by 2 and 4 table entries. -/
theorem C7_mcu_starts_table_size_witness :
    mcu_starts_count 4 2 2 =
      (8 / one_jpeg_tile_width 8 4 2) * (4 / one_jpeg_tile_height 4 2) :=
  C7_mcu_starts_table_size 8 4 4 2 2 (by norm_num) (by norm_num) (by norm_num)
    (by norm_num) (by norm_num)

/-- Claim C9 is a code bug: the restart-marker scan of `compute_optimization`
guards the loop with `marker < mcu_starts_count` but stores at index
`1 + marker` (line 602), so on a stream whose first two entropy bytes are
`FF D0` with `mcu_starts_count = 1` the loop stores at index 1, one past the
end of the 1-entry `mcu_starts` allocation.  This theorem evaluates the scan
at that failing input. -/
theorem C9_scan_writes_out_of_bounds :
    mcu_scan_writes [0xFF, 0xD0] false 0 1 = [1] ∧
      ∃ i ∈ mcu_scan_writes [0xFF, 0xD0] false 0 1, ¬ i < 1 := by
  decide

/-- Claim C1 (amended): `get_dimensions` returns `(0, 0)` for every layer
index at or above `layer_count`, but that is the only range check in the
code: a negative index reaches the `data->layers + layer` access in
`get_dimensions`, and `read_region` has no check at all, so every
out-of-range index (negative or too large) reaches the out-of-bounds layer
access (modelled by `none`) instead of returning without writing. -/
theorem C1_level_out_of_range :
    (∀ (layers : List Layer) (layer : Int), (layers.length : Int) ≤ layer →
      get_dimensions layers layer = some (0, 0)) ∧
    (∀ (layers : List Layer) (x y layer w h : Int),
      layer < 0 ∨ (layers.length : Int) ≤ layer →
      read_region layers x y layer w h = none) ∧
    (∀ (layers : List Layer) (layer : Int), layer < 0 →
      get_dimensions layers layer = none) := by
  refine ⟨?_, ?_, ?_⟩
  · intro layers layer hle
    unfold get_dimensions
    rw [if_pos hle]
  · intro layers x y layer w h hoob
    unfold read_region layersGet
    rw [dif_neg (by omega)]
    rfl
  · intro layers layer hneg
    unfold get_dimensions layersGet
    rw [if_neg (by omega), dif_neg (by omega)]
    rfl

/-- Witness for C1 at concrete inputs: the empty layer array with index 0. -/
theorem C1_level_out_of_range_witness :
    get_dimensions [] 0 = some (0, 0) ∧ read_region [] 0 0 0 1 1 = none :=
  ⟨C1_level_out_of_range.1 [] 0 (by norm_num),
   C1_level_out_of_range.2.1 [] 0 0 0 1 1 (Or.inr (by norm_num))⟩

/-- Counterexample to claim C1 as stated: with a one-layer array, index `-1`
is out of range of the layer array, yet `get_dimensions` does not return
`(0, 0)` (it reaches the out-of-bounds access), and `read_region` at the
out-of-range index 1 reaches the out-of-bounds layer access instead of
returning without having written anything. -/
theorem C1_counterexample :
    get_dimensions [sampleLayer] (-1) ≠ some (0, 0) ∧
      read_region [sampleLayer] 0 0 1 1 1 = none := by
  decide

/-- Unfolding of the scale-denominator loop entered at 1: it emits exactly
the four layers for `scale_denom` 1, 2, 4, 8. -/
theorem generate_layers_loop_one_eq (jpegs : List OneJpegRec)
    (a d pw ph iw ih l0 : Int) :
    generate_layers_loop jpegs a d pw ph iw ih l0 1 =
      [ (Int.tdiv pw 1, ⟨jpegs.take (a * d).toNat, pw, ph, a, d, iw, ih, 1,
          (l0 : ℚ) / (pw : ℚ)⟩),
        (Int.tdiv pw 2, ⟨jpegs.take (a * d).toNat, pw, ph, a, d, iw, ih, 2,
          (l0 : ℚ) / (pw : ℚ)⟩),
        (Int.tdiv pw 4, ⟨jpegs.take (a * d).toNat, pw, ph, a, d, iw, ih, 4,
          (l0 : ℚ) / (pw : ℚ)⟩),
        (Int.tdiv pw 8, ⟨jpegs.take (a * d).toNat, pw, ph, a, d, iw, ih, 8,
          (l0 : ℚ) / (pw : ℚ)⟩) ] := by
  simp [generate_layers_loop]

/-- Claim C5: for every flushed pyramid depth, the scale-denominator loop of
`generate_layers_into_map` emits exactly four layer records, one per
`scale_denom` in 1, 2, 4, 8, all sharing the same `layer_jpegs`, `pixel_w`
and `pixel_h`, and the map key under which each is inserted is its published
width `pixel_w / scale_denom`. -/
theorem C5_four_levels_per_depth (jpegs : List OneJpegRec)
    (a d pw ph iw ih l0 : Int) :
    ((generate_layers_loop jpegs a d pw ph iw ih l0 1).map
        fun e => e.2.scale_denom) = [1, 2, 4, 8] ∧
    ∀ e ∈ generate_layers_loop jpegs a d pw ph iw ih l0 1,
      e.2.layer_jpegs = jpegs.take (a * d).toNat ∧
      e.2.pixel_w = pw ∧ e.2.pixel_h = ph ∧ e.1 = published_width e.2 := by
  rw [generate_layers_loop_one_eq]
  refine ⟨by norm_num, ?_⟩
  intro e he
  simp only [List.mem_cons, List.not_mem_nil, or_false] at he
  rcases he with rfl | rfl | rfl | rfl <;>
    exact ⟨rfl, rfl, rfl, rfl⟩

/-- Witness for C5 at a concrete call (no fragments, a 16 by 16 depth):
the emitted scale denominators and the key of the first emitted entry. -/
theorem C5_four_levels_per_depth_witness :
    ((generate_layers_loop [] 1 1 16 16 16 16 16 1).map
        fun e => e.2.scale_denom) = [1, 2, 4, 8] ∧
    ((generate_layers_loop [] 1 1 16 16 16 16 16 1).getD 0
        (0, sampleLayer)).1 =
      published_width ((generate_layers_loop [] 1 1 16 16 16 16 16 1).getD 0
        (0, sampleLayer)).2 := by
  have h := C5_four_levels_per_depth [] 1 1 16 16 16 16 16
  refine ⟨h.1, ?_⟩
  refine (h.2 _ ?_).2.2.2
  rw [generate_layers_loop_one_eq]
  simp

/-- Truncation toward zero agrees with the floor on nonnegative rationals. -/
theorem ratTrunc_eq_floor (q : ℚ) (hq : 0 ≤ q) : ratTrunc q = ⌊q⌋ := by
  unfold ratTrunc
  rw [Int.tdiv_eq_ediv (Rat.num_nonneg.mpr hq) (Int.natCast_nonneg _)]
  conv_rhs => rw [← Rat.num_div_den q]
  rw [Rat.floor_intCast_div_natCast]

/-- Dividing under the floor by a positive integer is integer division of
the floor. -/
theorem floor_div_int_of_pos (q : ℚ) (s : Int) (hs : 0 < s) :
    ⌊q / (s : ℚ)⌋ = ⌊q⌋ / s := by
  have hs0 : (0 : ℚ) < (s : ℚ) := by exact_mod_cast hs
  have hmod1 : ⌊q⌋ % s < s := Int.emod_lt_of_pos _ hs
  have hdiv := Int.emod_add_ediv ⌊q⌋ s
  refine Int.floor_eq_iff.mpr ⟨?_, ?_⟩
  · rw [le_div_iff₀ hs0]
    have h1 : ⌊q⌋ / s * s ≤ ⌊q⌋ := Int.ediv_mul_le ⌊q⌋ hs.ne'
    calc ((⌊q⌋ / s : ℤ) : ℚ) * (s : ℚ) = ((⌊q⌋ / s * s : ℤ) : ℚ) := by push_cast; ring
      _ ≤ ((⌊q⌋ : ℤ) : ℚ) := by exact_mod_cast h1
      _ ≤ q := Int.floor_le q
  · rw [div_lt_iff₀ hs0]
    have h2 : ⌊q⌋ + 1 ≤ (⌊q⌋ / s + 1) * s := by
      have hx : (⌊q⌋ / s + 1) * s = s * (⌊q⌋ / s) + s := by ring
      linarith [hdiv, hmod1, hx]
    calc q < ((⌊q⌋ : ℤ) : ℚ) + 1 := Int.lt_floor_add_one q
      _ = ((⌊q⌋ + 1 : ℤ) : ℚ) := by push_cast; ring
      _ ≤ (((⌊q⌋ / s + 1) * s : ℤ) : ℚ) := by exact_mod_cast h2
      _ = (((⌊q⌋ / s : ℤ) : ℚ) + 1) * (s : ℚ) := by push_cast; ring

/-- The start-coordinate computation of the router: truncate `v / d`, then
round down to a multiple of `s`; on nonnegative input this is the floor of
`v / (d * s)` times `s`. -/
theorem src_coord_eq (v : Int) (dq : ℚ) (s : Int) (hv : 0 ≤ v)
    (hd : 0 < dq) (hs : 0 < s) :
    Int.tdiv (ratTrunc ((v : ℚ) / dq)) s * s =
      ⌊(v : ℚ) / (dq * (s : ℚ))⌋ * s := by
  have hq : (0 : ℚ) ≤ (v : ℚ) / dq :=
    div_nonneg (by exact_mod_cast hv) hd.le
  rw [ratTrunc_eq_floor _ hq, Int.tdiv_eq_ediv (Int.floor_nonneg.mpr hq) hs.le,
    ← floor_div_int_of_pos _ _ hs, div_div]

/-- Counterexample to claim C2 as stated: on a layer with
`no_scale_denom_downsample = 2` and `scale_denom = 1` (pre-scale width 4,
layer-0 width 8), a request at `x = 2` yields `src_x = 1` in the code (the
router divides `x` by the downsample factor), while the claimed formula
`floor(x * d / s) * s` yields 4.  All doubles involved (2, 2/2 = 1) are
exact, so the rational model computes exactly what the C code computes. -/
theorem C2_counterexample :
    (read_region [downsampledLayer] 2 0 0 1 1).map RouterSetup.src_x = some 1 ∧
      (⌊((2 : ℚ) * 2 / 1)⌋ * 1 : Int) = 4 ∧ (1 : Int) ≠ 4 := by
  refine ⟨?_, by norm_num, by decide⟩
  have hl : layersGet [downsampledLayer] 0 = some downsampledLayer := by
    unfold layersGet
    rw [dif_pos (by norm_num)]
    rfl
  have h := src_coord_eq 2 downsampledLayer.no_scale_denom_downsample
    downsampledLayer.scale_denom (by norm_num)
    (by norm_num [downsampledLayer]) (by norm_num [downsampledLayer])
  unfold read_region
  rw [hl]
  show some (Int.tdiv
      (ratTrunc (((2 : Int) : ℚ) / downsampledLayer.no_scale_denom_downsample))
      downsampledLayer.scale_denom * downsampledLayer.scale_denom) = some 1
  rw [h]
  have h2 : ((2 : Int) : ℚ) / (downsampledLayer.no_scale_denom_downsample *
      (downsampledLayer.scale_denom : ℚ)) = 1 := by
    norm_num [downsampledLayer]
  rw [h2]
  norm_num [downsampledLayer]

/-- Claim C2 (amended): the router computes `src_x` by dividing `x` by the
downsample factor `d` (not multiplying): it truncates `x / d` to an integer
and rounds it down to a multiple of `s`, which for nonnegative coordinates
equals `floor(x / (d * s)) * s`; likewise for `src_y`.  The incoming `x, y`
are hence in layer-0 coordinates, not in the published space of the chosen
level. -/
theorem C2_router_src_start (layers : List Layer) (l : Layer)
    (x y layer w h : Int)
    (hl : layersGet layers layer = some l)
    (hx : 0 ≤ x) (hy : 0 ≤ y)
    (hd : 0 < l.no_scale_denom_downsample) (hs : 0 < l.scale_denom) :
    ∃ st, read_region layers x y layer w h = some st ∧
      st.src_x = ⌊(x : ℚ) / (l.no_scale_denom_downsample *
        (l.scale_denom : ℚ))⌋ * l.scale_denom ∧
      st.src_y = ⌊(y : ℚ) / (l.no_scale_denom_downsample *
        (l.scale_denom : ℚ))⌋ * l.scale_denom := by
  unfold read_region
  rw [hl]
  exact ⟨_, rfl, src_coord_eq x _ _ hx hd hs, src_coord_eq y _ _ hy hd hs⟩

/-- Witness for C2 at the concrete layer and request of the counterexample. -/
theorem C2_router_src_start_witness :
    ∃ st, read_region [downsampledLayer] 2 0 0 1 1 = some st ∧
      st.src_x = ⌊((2 : Int) : ℚ) / (downsampledLayer.no_scale_denom_downsample *
        (downsampledLayer.scale_denom : ℚ))⌋ * downsampledLayer.scale_denom ∧
      st.src_y = ⌊((0 : Int) : ℚ) / (downsampledLayer.no_scale_denom_downsample *
        (downsampledLayer.scale_denom : ℚ))⌋ * downsampledLayer.scale_denom :=
  C2_router_src_start [downsampledLayer] downsampledLayer 2 0 0 1 1
    (by unfold layersGet; rw [dif_pos (by norm_num)]; rfl) (by norm_num) (by norm_num)
    (by norm_num [downsampledLayer]) (by norm_num [downsampledLayer])

theorem countMarkF_zero (bytes : List Nat) (f : Bool) : countMarkF bytes f 0 = 0 :=
  rfl

theorem isMarkerPosF_cons_zero (b : Nat) (rest : List Nat) (f : Bool) :
    isMarkerPosF (b :: rest) f 0 = (f && isRstByte b) := by
  simp [isMarkerPosF]

theorem isMarkerPosF_cons_succ (b : Nat) (rest : List Nat) (f : Bool) (i : Nat) :
    isMarkerPosF (b :: rest) f (i + 1) = isMarkerPosF rest (b == 0xFF) i := by
  cases i with
  | zero => simp [isMarkerPosF]
  | succ j => simp [isMarkerPosF]

theorem countMarkF_cons_succ (b : Nat) (rest : List Nat) (f : Bool) (i : Nat) :
    countMarkF (b :: rest) f (i + 1) =
      (if f && isRstByte b then 1 else 0) + countMarkF rest (b == 0xFF) i := by
  have hcomp : (isMarkerPosF (b :: rest) f ∘ Nat.succ) = isMarkerPosF rest (b == 0xFF) := by
    funext j
    exact isMarkerPosF_cons_succ b rest f j
  unfold countMarkF
  rw [List.range_succ_eq_map, List.filter_cons, List.filter_map, hcomp,
    isMarkerPosF_cons_zero]
  by_cases hb : (f && isRstByte b) = true
  · simp only [hb, if_true, List.length_cons, List.length_map]
    omega
  · simp [hb]

theorem rewrite_length (bytes : List Nat) (f : Bool) (m : Nat) :
    (rewrite_restart_markers bytes f m).1.length = bytes.length := by
  induction bytes generalizing f m with
  | nil => rfl
  | cons b rest ih =>
    simp only [rewrite_restart_markers]
    by_cases hb : (f = true ∧ isRstByte b = true)
    · simp [hb, ih]
    · simp [hb, ih]

theorem rewrite_getD (bytes : List Nat) (f : Bool) (m : Nat) (hm : m < 8) (i : Nat) :
    (rewrite_restart_markers bytes f m).1.getD i 0 =
      if isMarkerPosF bytes f i then 0xD0 ||| ((m + countMarkF bytes f i) % 8)
      else bytes.getD i 0 := by
  induction bytes generalizing f m i with
  | nil =>
    cases i <;> simp [rewrite_restart_markers, isMarkerPosF, isRstByte]
  | cons b rest ih =>
    simp only [rewrite_restart_markers]
    by_cases hb : (f = true ∧ isRstByte b = true)
    · have hb2 : (f && isRstByte b) = true := by simp [hb.1, hb.2]
      cases i with
      | zero =>
        rw [if_pos hb]
        simp only [List.getD_cons_zero, isMarkerPosF_cons_zero, countMarkF_zero]
        rw [if_pos hb2, Nat.add_zero, Nat.mod_eq_of_lt hm]
      | succ j =>
        rw [if_pos hb]
        simp only [List.getD_cons_succ]
        rw [ih (b == 0xFF) ((m + 1) % 8) (Nat.mod_lt _ (by norm_num)) j,
          isMarkerPosF_cons_succ, countMarkF_cons_succ, if_pos hb2]
        split_ifs with h1
        · congr 1
          omega
        · rfl
    · have hb2 : ¬((f && isRstByte b) = true) := by
        simp only [Bool.and_eq_true]
        exact hb
      cases i with
      | zero =>
        rw [if_neg hb]
        simp only [List.getD_cons_zero, isMarkerPosF_cons_zero]
        rw [if_neg hb2]
      | succ j =>
        rw [if_neg hb]
        simp only [List.getD_cons_succ]
        rw [ih (b == 0xFF) m hm j, isMarkerPosF_cons_succ, countMarkF_cons_succ,
          if_neg hb2, Nat.zero_add]

theorem rewrite_final_marker (bytes : List Nat) (f : Bool) (m : Nat) (hm : m < 8) :
    (rewrite_restart_markers bytes f m).2 =
      (m + countMarkF bytes f bytes.length) % 8 := by
  induction bytes generalizing f m with
  | nil =>
    simp [rewrite_restart_markers, countMarkF_zero, Nat.mod_eq_of_lt hm]
  | cons b rest ih =>
    simp only [rewrite_restart_markers, List.length_cons]
    rw [countMarkF_cons_succ]
    by_cases hb : (f = true ∧ isRstByte b = true)
    · have hb2 : (f && isRstByte b) = true := by simp [hb.1, hb.2]
      rw [if_pos hb, if_pos hb2]
      rw [ih (b == 0xFF) ((m + 1) % 8) (Nat.mod_lt _ (by norm_num))]
      omega
    · have hb2 : ¬((f && isRstByte b) = true) := by
        simp only [Bool.and_eq_true]
        exact hb
      rw [if_neg hb, if_neg hb2, Nat.zero_add]
      exact ih (b == 0xFF) m hm

theorem fill_post_read_buffer (bytes : List Nat) (m : Nat) :
    (fill_post_read bytes m).buffer = (rewrite_restart_markers bytes false m).1 := by
  unfold fill_post_read
  split_ifs <;> rfl

theorem fill_post_read_marker (bytes : List Nat) (m : Nat) :
    (fill_post_read bytes m).next_restart_marker =
      (rewrite_restart_markers bytes false m).2 := by
  unfold fill_post_read
  split_ifs <;> rfl

theorem and_seven_of_lt (n : Nat) (h : n < 8) : n &&& 7 = n := by
  interval_cases n <;> rfl

/-- Claim C3: on every fill after the header pass (the `rewrite_markers`
branch of `fill_input_buffer`), every two-byte sequence `FF Dn` with
`n` in `0..7` in the freshly read bytes has its second byte overwritten with
`D0 | (next_restart_marker & 7)` where `next_restart_marker` has been
incremented modulo 8 once per marker seen so far, all other bytes are
unchanged, the final `next_restart_marker` is the initial one plus the
number of markers, modulo 8; and if the last byte read is `FF` and more than
one byte was read, the byte count is decremented by one and the file is
sought back one byte, otherwise the count is the full read and no seek
happens.  The hypothesis `m < 8` is the invariant the code maintains for
`next_restart_marker` (set to 0 by init_source, always reduced mod 8). -/
theorem C3_fill_marker_rewrite (bytes : List Nat) (m : Nat) (hm : m < 8) :
    (fill_post_read bytes m).buffer.length = bytes.length ∧
    (∀ i, isMarkerPos bytes i = true →
      (fill_post_read bytes m).buffer.getD i 0 =
        0xD0 ||| (((m + markersBefore bytes i) % 8) &&& 7)) ∧
    (∀ i, isMarkerPos bytes i = false →
      (fill_post_read bytes m).buffer.getD i 0 = bytes.getD i 0) ∧
    (fill_post_read bytes m).next_restart_marker =
      (m + markersBefore bytes bytes.length) % 8 ∧
    (bytes.getLast? = some 0xFF ∧ 1 < bytes.length →
      (fill_post_read bytes m).bytes_in_buffer = bytes.length - 1 ∧
      (fill_post_read bytes m).seek_delta = -1) ∧
    (¬(bytes.getLast? = some 0xFF ∧ 1 < bytes.length) →
      (fill_post_read bytes m).bytes_in_buffer = bytes.length ∧
      (fill_post_read bytes m).seek_delta = 0) := by
  refine ⟨?_, ?_, ?_, ?_, ?_, ?_⟩
  · rw [fill_post_read_buffer]
    exact rewrite_length bytes false m
  · intro i hi
    rw [fill_post_read_buffer, rewrite_getD bytes false m hm i]
    rw [and_seven_of_lt _ (Nat.mod_lt _ (by norm_num))]
    unfold isMarkerPos at hi
    rw [if_pos hi]
    rfl
  · intro i hi
    rw [fill_post_read_buffer, rewrite_getD bytes false m hm i]
    unfold isMarkerPos at hi
    rw [if_neg (by simp [hi])]
  · rw [fill_post_read_marker, rewrite_final_marker bytes false m hm]
    rfl
  · intro hlast
    unfold fill_post_read
    rw [if_pos hlast]
    exact ⟨rfl, rfl⟩
  · intro hlast
    unfold fill_post_read
    rw [if_neg hlast]
    exact ⟨rfl, rfl⟩

/-- Witness for C3 on the concrete buffer `FF D3 41 FF D5 FF` with
`next_restart_marker = 6`: the markers at positions 1 and 4 are rewritten to
`D6` and `D7`, the marker wraps to 0, and the trailing `FF` causes the byte
count to drop to 5 with a one-byte backward seek. -/
theorem C3_fill_marker_rewrite_witness :
    (fill_post_read [0xFF, 0xD3, 0x41, 0xFF, 0xD5, 0xFF] 6).buffer.getD 1 0 = 0xD6 ∧
    (fill_post_read [0xFF, 0xD3, 0x41, 0xFF, 0xD5, 0xFF] 6).buffer.getD 4 0 = 0xD7 ∧
    (fill_post_read [0xFF, 0xD3, 0x41, 0xFF, 0xD5, 0xFF] 6).buffer.getD 2 0 = 0x41 ∧
    (fill_post_read [0xFF, 0xD3, 0x41, 0xFF, 0xD5, 0xFF] 6).next_restart_marker = 0 ∧
    (fill_post_read [0xFF, 0xD3, 0x41, 0xFF, 0xD5, 0xFF] 6).bytes_in_buffer = 5 ∧
    (fill_post_read [0xFF, 0xD3, 0x41, 0xFF, 0xD5, 0xFF] 6).seek_delta = -1 := by
  have h := C3_fill_marker_rewrite [0xFF, 0xD3, 0x41, 0xFF, 0xD5, 0xFF] 6 (by norm_num)
  have h1 := h.2.1 1 (by decide)
  have h4 := h.2.1 4 (by decide)
  have h2 := h.2.2.1 2 (by decide)
  have hmk := h.2.2.2.1
  have htl := h.2.2.2.2.1 (by decide)
  refine ⟨?_, ?_, ?_, ?_, htl.1, htl.2⟩
  · rw [h1]
    decide
  · rw [h4]
    decide
  · rw [h2]
    rfl
  · rw [hmk]
    decide

/-- The C predicate `is_zxy_successor` decides exactly the successor relation
spelled out in the specification. -/
theorem is_zxy_successor_iff (pz px py z x y : Int) :
    is_zxy_successor pz px py z x y = true ↔
      zxy_successor_rel ⟨pz, px, py⟩ ⟨z, x, y⟩ := by
  unfold is_zxy_successor zxy_successor_rel
  split_ifs with h1 h2 h3 h4 <;> simp_all

/-- Every successful run of the fragment loop has passed the successor
assert between each previous position and the next fragment. -/
theorem create_loop_chain (frs : List (Fragment × OneJpegRec)) :
    ∀ (pz px py : Int) (acc : List OneJpegRec) (pw ph iw ihh l0 : Int)
      (m m' : List (Int × Layer)),
      create_width_to_layer_map_loop frs pz px py acc pw ph iw ihh l0 m = some m' →
      List.Chain zxy_successor_rel ⟨pz, px, py⟩ (frs.map Prod.fst) := by
  induction frs with
  | nil =>
    intro pz px py _ _ _ _ _ _ _ _ _
    exact List.Chain.nil
  | cons p rest ih =>
    intro pz px py acc pw ph iw ihh l0 m m' hsome
    obtain ⟨fr, oj⟩ := p
    simp only [create_width_to_layer_map_loop] at hsome
    simp only [List.map_cons]
    by_cases hsucc : is_zxy_successor pz px py fr.z fr.x fr.y = true
    · rw [if_pos hsucc] at hsome
      refine List.Chain.cons ((is_zxy_successor_iff pz px py fr.z fr.x fr.y).mp hsucc) ?_
      by_cases hend : layer_ends_here fr rest = true
      · rw [if_pos hend] at hsome
        exact ih _ _ _ _ _ _ _ _ _ _ _ hsome
      · rw [if_neg hend] at hsome
        exact ih _ _ _ _ _ _ _ _ _ _ _ hsome
    · rw [if_neg hsucc] at hsome
      cases hsome

/-- Claim C4: every fragment list accepted by the setup loop (its successor
`g_assert` never fired) starts at `(z=0, x=0, y=0)` and each consecutive
pair satisfies exactly the three-alternative successor relation; a violating
list makes `create_width_to_layer_map` fail (contrapositive of this
implication).  The nonnegativity hypothesis encodes the data model: `z` is a
pyramid level index starting at 0 (a first fragment with the meaningless
coordinate `z = -1` would also pass the assert against the initial previous
position `(-1,-1,-1)`). -/
theorem C4_fragment_order (frs : List (Fragment × OneJpegRec))
    (m : List (Int × Layer))
    (hz : ∀ p ∈ frs, 0 ≤ (Prod.fst p).z)
    (hacc : create_width_to_layer_map frs = some m) :
    (∀ f0, (frs.map Prod.fst).head? = some f0 →
      f0.z = 0 ∧ f0.x = 0 ∧ f0.y = 0) ∧
      List.Chain' zxy_successor_rel (frs.map Prod.fst) := by
  unfold create_width_to_layer_map at hacc
  have hchain := create_loop_chain frs (-1) (-1) (-1) [] 0 0 0 0 0 [] m hacc
  constructor
  · intro f0 hf0
    cases frs with
    | nil => simp at hf0
    | cons p rest =>
      simp only [List.map_cons, List.head?_cons, Option.some.injEq] at hf0
      subst hf0
      cases hchain with
      | cons hrel _ =>
        have hz0 : 0 ≤ (Prod.fst p).z := hz p (List.mem_cons_self p rest)
        simp only [zxy_successor_rel] at hrel
        rcases hrel with ⟨h1, h2, h3⟩ | ⟨h1, h2, h3⟩ | ⟨h1, h2, h3⟩ <;>
          exact ⟨by omega, by omega, by omega⟩
  · exact List.Chain'.tail
      (l := (⟨-1, -1, -1⟩ : Fragment) :: frs.map Prod.fst) hchain

/-- Witness for C4 on the accepted two-fragment list
`(0,0,0)` then `(1,0,0)`. -/
theorem C4_fragment_order_witness :
    ((⟨0, 0, 0⟩ : Fragment).z = 0 ∧ (⟨0, 0, 0⟩ : Fragment).x = 0 ∧
        (⟨0, 0, 0⟩ : Fragment).y = 0) ∧
      List.Chain' zxy_successor_rel
        (([(⟨⟨0, 0, 0⟩, ⟨16, 16⟩⟩ : Fragment × OneJpegRec),
           ⟨⟨1, 0, 0⟩, ⟨8, 8⟩⟩]).map Prod.fst) := by
  have h := C4_fragment_order
    [(⟨⟨0, 0, 0⟩, ⟨16, 16⟩⟩ : Fragment × OneJpegRec), ⟨⟨1, 0, 0⟩, ⟨8, 8⟩⟩]
    ((create_width_to_layer_map
      [(⟨⟨0, 0, 0⟩, ⟨16, 16⟩⟩ : Fragment × OneJpegRec), ⟨⟨1, 0, 0⟩, ⟨8, 8⟩⟩]).getD [])
    (by decide) (by rfl)
  exact ⟨h.1 ⟨0, 0, 0⟩ rfl, h.2⟩

theorem mem_insertReplace (m : List (Int × Layer)) (e p : Int × Layer)
    (hp : p ∈ insertReplace m e) : p = e ∨ p ∈ m := by
  unfold insertReplace at hp
  rcases List.mem_cons.mp hp with h | h
  · exact Or.inl h
  · exact Or.inr (List.mem_of_mem_filter h)

theorem mem_foldl_insertReplace (entries : List (Int × Layer)) :
    ∀ (m : List (Int × Layer)) (p : Int × Layer),
      p ∈ entries.foldl insertReplace m → p ∈ entries ∨ p ∈ m := by
  induction entries with
  | nil =>
    intro m p hp
    exact Or.inr hp
  | cons e rest ih =>
    intro m p hp
    rcases ih (insertReplace m e) p hp with h | h
    · exact Or.inl (List.mem_cons_of_mem _ h)
    · rcases mem_insertReplace m e p h with h2 | h2
      · exact Or.inl (h2 ▸ List.mem_cons_self e rest)
      · exact Or.inr h2

theorem gen_entries_key (jpegs : List OneJpegRec) (a d pw ph iw ihh l0 : Int) :
    ∀ p ∈ generate_layers_loop jpegs a d pw ph iw ihh l0 1,
      p.1 = published_width p.2 := by
  rw [generate_layers_loop_one_eq]
  intro p hp
  simp only [List.mem_cons, List.not_mem_nil, or_false] at hp
  rcases hp with rfl | rfl | rfl | rfl <;> rfl

theorem gen_into_map_inv (jpegs : List OneJpegRec) (a d pw ph iw ihh l0 : Int)
    (m : List (Int × Layer)) (hm : ∀ p ∈ m, p.1 = published_width p.2) :
    ∀ p ∈ generate_layers_into_map jpegs a d pw ph iw ihh l0 m,
      p.1 = published_width p.2 := by
  intro p hp
  unfold generate_layers_into_map at hp
  rcases mem_foldl_insertReplace _ _ _ hp with h | h
  · exact gen_entries_key jpegs a d pw ph iw ihh l0 p h
  · exact hm p h

theorem create_loop_inv (frs : List (Fragment × OneJpegRec)) :
    ∀ (pz px py : Int) (acc : List OneJpegRec) (pw ph iw ihh l0 : Int)
      (m m' : List (Int × Layer)),
      (∀ p ∈ m, p.1 = published_width p.2) →
      create_width_to_layer_map_loop frs pz px py acc pw ph iw ihh l0 m = some m' →
      ∀ p ∈ m', p.1 = published_width p.2 := by
  induction frs with
  | nil =>
    intro pz px py acc pw ph iw ihh l0 m m' hm hsome
    have h2 : m = m' := Option.some.inj hsome
    subst h2
    exact hm
  | cons p0 rest ih =>
    intro pz px py acc pw ph iw ihh l0 m m' hm hsome
    obtain ⟨fr, oj⟩ := p0
    simp only [create_width_to_layer_map_loop] at hsome
    by_cases hsucc : is_zxy_successor pz px py fr.z fr.x fr.y = true
    · rw [if_pos hsucc] at hsome
      by_cases hend : layer_ends_here fr rest = true
      · rw [if_pos hend] at hsome
        exact ih _ _ _ _ _ _ _ _ _ _ _
          (gen_into_map_inv _ _ _ _ _ _ _ _ _ hm) hsome
      · rw [if_neg hend] at hsome
        exact ih _ _ _ _ _ _ _ _ _ _ _ hm hsome
    · rw [if_neg hsucc] at hsome
      cases hsome

theorem map_lookup_key (k : Int) (m : List (Int × Layer)) (l : Layer)
    (hinv : ∀ p ∈ m, p.1 = published_width p.2)
    (hl : map_lookup k m = some l) : published_width l = k := by
  unfold map_lookup at hl
  cases hf : m.find? (fun p => p.1 == k) with
  | none =>
    rw [hf] at hl
    cases hl
  | some p =>
    rw [hf] at hl
    have h2 : p.2 = l := Option.some.inj hl
    subst h2
    have h1 := List.find?_some hf
    simp only [beq_iff_eq] at h1
    rw [← hinv p (List.mem_of_find?_eq_some hf), h1]

/-- Claim C6: whenever setup completes, the layer array copied out of the
width-to-layer map in sorted key order is sorted by published width
`pixel_w / scale_denom` in descending order: for all positions `i < j` the
published width at `i` is at least the one at `j`. -/
theorem C6_levels_sorted (frs : List (Fragment × OneJpegRec)) (arr : List Layer)
    (h : _openslide_add_jpeg_ops frs = some arr) :
    arr.Pairwise (fun a b => published_width b ≤ published_width a) := by
  unfold _openslide_add_jpeg_ops at h
  cases hc : create_width_to_layer_map frs with
  | none =>
    rw [hc] at h
    cases h
  | some m =>
    rw [hc] at h
    simp only [Option.some.injEq] at h
    subst h
    have hinv : ∀ p ∈ m, p.1 = published_width p.2 := by
      unfold create_width_to_layer_map at hc
      exact create_loop_inv frs _ _ _ _ _ _ _ _ _ _ _ (by simp) hc
    have hsorted : List.Pairwise (fun a b : Int => b ≤ a)
        (((m.map Prod.fst).reverse).insertionSort (fun a b => b ≤ a)) :=
      List.sorted_insertionSort _ _
    rw [List.pairwise_filterMap]
    refine List.Pairwise.imp ?_ hsorted
    intro k k' hk
    intro l hl l' hl'
    rw [map_lookup_key k m l hinv (Option.mem_def.mp hl),
      map_lookup_key k' m l' hinv (Option.mem_def.mp hl')]
    exact hk

/-- Witness for C6 on the one-fragment pyramid: the four resulting layers
are sorted by published width descending. -/
theorem C6_levels_sorted_witness :
    ((_openslide_add_jpeg_ops
        [(⟨⟨0, 0, 0⟩, ⟨16, 16⟩⟩ : Fragment × OneJpegRec)]).getD []).Pairwise
      (fun a b => published_width b ≤ published_width a) :=
  C6_levels_sorted [(⟨⟨0, 0, 0⟩, ⟨16, 16⟩⟩ : Fragment × OneJpegRec)] _ (by rfl)

theorem copy_row_loop_eq (row : List Nat) (d_x w output_width base : Nat) :
    ∀ (n i : Nat), w - i ≤ n →
      copy_row_loop row d_x w output_width base i =
        (List.range' i (min w (output_width - d_x) - i)).map
          (fun j => (base + j, argb_pixel row d_x j)) := by
  intro n
  induction n with
  | zero =>
    intro i hi
    rw [copy_row_loop.eq_def]
    have hng : ¬(i < w ∧ (i : Int) < (output_width : Int) - (d_x : Int)) := by
      rintro ⟨h1, _⟩
      omega
    rw [if_neg hng]
    have hmin : min w (output_width - d_x) - i = 0 := by omega
    rw [hmin]
    rfl
  | succ n ihn =>
    intro i hi
    rw [copy_row_loop.eq_def]
    by_cases hc : i < w ∧ (i : Int) < (output_width : Int) - (d_x : Int)
    · rw [if_pos hc]
      have h1 : i < w := hc.1
      have h2 : i < output_width - d_x := by
        have := hc.2
        omega
      have h3 : min w (output_width - d_x) - i =
          (min w (output_width - d_x) - (i + 1)) + 1 := by omega
      rw [h3, List.range'_succ]
      simp only [List.map_cons]
      rw [ihn (i + 1) (by omega)]
    · rw [if_neg hc]
      have hmin : min w (output_width - d_x) - i = 0 := by
        by_cases h1 : i < w
        · have h2 : ¬((i : Int) < (output_width : Int) - (d_x : Int)) :=
            fun hb => hc ⟨h1, hb⟩
          omega
        · omega
      rw [hmin]
      rfl

theorem copy_row_loop_zero (row : List Nat) (d_x w output_width base : Nat) :
    copy_row_loop row d_x w output_width base 0 =
      (List.range (min w (output_width - d_x))).map
        (fun j => (base + j, argb_pixel row d_x j)) := by
  rw [copy_row_loop_eq row d_x w output_width base w 0 (by omega),
    List.range_eq_range']
  rfl

/-- Claim C8: the scanline loop of `read_from_one_jpeg` performs exactly the
writes the specification describes: after skipping `rows_to_skip` decoded
rows, each of the next `rows_left` rows contributes exactly
`min w (output_width - d_x)` pixels taken from scanline columns starting at
`d_x`, each expanded to the ARGB word
`FF000000 | R << 16 | G << 8 | B`, and the destination offset advances by
`stride` words per emitted row. -/
theorem C8_reader_row_copy (rows : List (List Nat))
    (rows_to_skip rows_left d_x w output_width stride base : Nat) :
    decode_rows_loop rows rows_to_skip rows_left d_x w output_width stride base =
      emitted_writes rows rows_to_skip rows_left d_x w output_width stride base := by
  induction rows generalizing rows_to_skip rows_left base with
  | nil =>
    simp [decode_rows_loop, emitted_writes]
  | cons r rest ih =>
    rcases Nat.eq_zero_or_pos rows_left with hl | hl
    · subst hl
      simp [decode_rows_loop, emitted_writes]
    · obtain ⟨lft, rfl⟩ : ∃ lft, rows_left = lft + 1 := ⟨rows_left - 1, by omega⟩
      cases rows_to_skip with
      | succ sk =>
        simp only [decode_rows_loop]
        rw [if_neg (by omega), if_pos (by omega)]
        simp only [Nat.add_sub_cancel]
        rw [ih]
        unfold emitted_writes
        rw [List.drop_succ_cons]
      | zero =>
        simp only [decode_rows_loop]
        rw [if_neg (by omega), if_neg (by omega)]
        rw [ih, copy_row_loop_zero]
        unfold emitted_writes
        simp only [List.drop_zero, List.take_succ_cons, List.mapIdx_cons,
          List.flatten_cons]
        congr 1
        · simp only [Nat.zero_mul, Nat.add_zero]
        · have hfun : (fun (i : Nat) (r' : List Nat) =>
              (List.range (min w (output_width - d_x))).map fun j =>
                (base + (i + 1) * stride + j, argb_pixel r' d_x j)) =
              (fun (i : Nat) (r' : List Nat) =>
              (List.range (min w (output_width - d_x))).map fun j =>
                (base + stride + i * stride + j, argb_pixel r' d_x j)) := by
            funext i r'
            have harith : ∀ j : Nat,
                base + (i + 1) * stride + j = base + stride + i * stride + j := by
              intro j
              ring
            simp only [harith]
          rw [hfun]
          simp only [Nat.add_sub_cancel]
